import Mathlib

/-!
# Verification of the SOS (Strength-of-Schedule) engine of `SOS_App`

Shallow embedding of `DataBuilder.buildSOS` and its helper `_gamesPlayed`
from `src/databuilder.py`, together with proofs settling the claims about
the per-season SOS computation.

Modelling conventions:
* NumPy float values flowing through the OW/OOW/SOS arithmetic are modelled
  as `Option ℚ`, with `none` standing for IEEE NaN.  The win matrix, the
  opponents-played matrix and all row/column sums are integer-valued and
  finite throughout the computation, so they are modelled as plain `ℚ`.
* `ndiv` models NumPy scalar float division on the values reachable in this
  program: every division whose divisor is `0` here also has numerator `0`
  (`0.0/0.0 = NaN`), so a zero divisor is mapped to `none`; infinities are
  unreachable (lemma `ndot_played_zero` below makes this explicit for the
  one unguarded division of the program).
* Python dicts are modelled as association lists with insertion-order and
  overwrite-in-place semantics, exactly as CPython dicts behave.
* Dates compare as a total order after `date.fromisoformat`; they are
  modelled as integers (e.g. proleptic day ordinals).
* The `try/except` around the win-matrix increments (lines 211–219) and the
  out-of-range/tie skips are modelled by the corresponding conditionals:
  a failed dict lookup or out-of-bounds row leaves the matrix unchanged.
-/

namespace SOSApp

/-- A game record as consumed by `buildSOS` (lines 202–205 of
`databuilder.py`): away/home scores and away/home team ids. -/
structure Game where
  awayScore : ℕ
  homeScore : ℕ
  awayId : ℕ
  homeId : ℕ
deriving DecidableEq, Repr

/-- One entry of `season_data["dates"]`: a date and the games played then. -/
structure GameDay where
  date : ℤ
  games : List Game
deriving DecidableEq, Repr

/-- The per-season input of `buildSOS`: the standings listing (team ids in
listing order, lines 183–186), the schedule, and the regular-season
start/end dates. -/
structure SeasonInput where
  standings : List ℕ
  days : List GameDay
  startDate : ℤ
  endDate : ℤ
deriving DecidableEq, Repr

/-! ## Python dict model (association lists, insertion order, overwrite) -/

/-- `dict[k] = v`: overwrite in place when the key exists (keeping its
insertion position, as CPython does), append otherwise. -/
def setKey : List (ℕ × ℕ) → ℕ → ℕ → List (ℕ × ℕ)
  | [], k, v => [(k, v)]
  | p :: rest, k, v => if p.1 = k then (k, v) :: rest else p :: setKey rest k v

/-- `dict[k]`, as an `Option`: `none` models a `KeyError`. -/
def lookupKey : List (ℕ × ℕ) → ℕ → Option ℕ
  | [], _ => none
  | p :: rest, k => if p.1 = k then some p.2 else lookupKey rest k

/-- Lines 181–186: build `win_matrix_row_from_id`, assigning consecutive row
numbers to the team ids in standings listing order. -/
def buildRowMapAux : List ℕ → ℕ → List (ℕ × ℕ) → List (ℕ × ℕ)
  | [], _, m => m
  | id :: rest, row, m => buildRowMapAux rest (row + 1) (setKey m id row)

/-- The `win_matrix_row_from_id` dict of a season. -/
def buildRowMap (standings : List ℕ) : List (ℕ × ℕ) :=
  buildRowMapAux standings 0 []

/-- Lines 189–191: build `id_from_win_matrix_row` by inverting the row map
entry by entry (`dict.items()` iterates in insertion order). -/
def invMap (m : List (ℕ × ℕ)) : List (ℕ × ℕ) :=
  m.foldl (fun acc p => setKey acc p.2 p.1) []

/-- `dict.values()` in insertion order. -/
def dictValues (m : List (ℕ × ℕ)) : List ℕ :=
  m.map Prod.snd

/-- Line 194: `num_teams = len(win_matrix_row_from_id)`. -/
def numTeams (inp : SeasonInput) : ℕ :=
  (buildRowMap inp.standings).length

/-! ## Step 1: win matrix construction (lines 193–219) -/

/-- `win_matrix[i][j] += 1`. -/
def updMat (wm : ℕ → ℕ → ℚ) (i j : ℕ) : ℕ → ℕ → ℚ :=
  fun a b => if a = i ∧ b = j then wm a b + 1 else wm a b

/-- Lines 202–219, processing one game: skip ids above 58, skip ties, and
increment the winner's cell; a missing row (dict `KeyError`) or an
out-of-bounds row (NumPy `IndexError`) is caught by the `try/except` and
leaves the matrix unchanged. -/
def stepGame (rowOf : ℕ → Option ℕ) (n : ℕ) (wm : ℕ → ℕ → ℚ) (g : Game) :
    ℕ → ℕ → ℚ :=
  if g.homeId > 58 ∨ g.awayId > 58 then wm
  else if g.awayScore > g.homeScore then
    match rowOf g.awayId, rowOf g.homeId with
    | some r1, some r2 => if r1 < n ∧ r2 < n then updMat wm r1 r2 else wm
    | _, _ => wm
  else if g.homeScore > g.awayScore then
    match rowOf g.homeId, rowOf g.awayId with
    | some r1, some r2 => if r1 < n ∧ r2 < n then updMat wm r1 r2 else wm
    | _, _ => wm
  else wm

/-- Lines 198–200: process one schedule day, only if its date lies in the
inclusive regular-season window. -/
def stepDay (rowOf : ℕ → Option ℕ) (n : ℕ) (startD endD : ℤ)
    (wm : ℕ → ℕ → ℚ) (d : GameDay) : ℕ → ℕ → ℚ :=
  if startD ≤ d.date ∧ d.date ≤ endD then
    d.games.foldl (stepGame rowOf n) wm
  else wm

/-- The season's win matrix, built from an all-zero matrix. -/
def buildWinMatrix (inp : SeasonInput) : ℕ → ℕ → ℚ :=
  inp.days.foldl
    (stepDay (lookupKey (buildRowMap inp.standings)) (numTeams inp)
      inp.startDate inp.endDate)
    (fun _ _ => 0)

/-! ## NumPy float model: `Option ℚ` with `none` = NaN -/

/-- NaN-propagating addition. -/
def nadd : Option ℚ → Option ℚ → Option ℚ
  | some x, some y => some (x + y)
  | _, _ => none

/-- NaN-propagating multiplication (IEEE: `0 * NaN = NaN`). -/
def nmul : Option ℚ → Option ℚ → Option ℚ
  | some x, some y => some (x * y)
  | _, _ => none

/-- NumPy float division on the values reachable in `buildSOS`: a NaN
operand gives NaN, and a `0` divisor gives NaN (in this program every `0`
divisor comes with a `0` numerator, so the result is `0.0/0.0 = NaN`;
infinities never arise). -/
def ndiv : Option ℚ → Option ℚ → Option ℚ
  | some x, some y => if y = 0 then none else some (x / y)
  | _, _ => none

/-- Dot product of two NaN-carrying vectors over indices `0, …, n-1`
(`a @ b` for 1-D NumPy arrays).  Rational addition is associative and
commutative, so the accumulation order of the float sum is immaterial
here: all-finite inputs give the exact sum, and any NaN term makes the
whole sum NaN. -/
def ndot : ℕ → (ℕ → Option ℚ) → (ℕ → Option ℚ) → Option ℚ
  | 0, _, _ => some 0
  | n + 1, v, w => nadd (nmul (v n) (w n)) (ndot n v w)

/-! ## Step 2 and helpers: games-played (lines 28–39, 221–222) -/

/-- `_gamesPlayed` (lines 28–39): column sums plus row sums of the win
matrix, i.e. total games each team played. -/
def gamesPlayed (n : ℕ) (wm : ℕ → ℕ → ℚ) (t : ℕ) : ℚ :=
  (∑ i ∈ Finset.range n, wm i t) + (∑ j ∈ Finset.range n, wm t j)

/-- Line 222: `opp_plays = win_matrix + transpose(win_matrix)`. -/
def oppPlays (wm : ℕ → ℕ → ℚ) (i j : ℕ) : ℚ :=
  wm i j + wm j i

/-! ## Step 3: OW% (lines 224–235) -/

/-- Lines 229–231: copy the win matrix and zero row `t` and column `t`. -/
def zeroRC (wm : ℕ → ℕ → ℚ) (t : ℕ) : ℕ → ℕ → ℚ :=
  fun a b => if a = t ∨ b = t then 0 else wm a b

/-- Line 232: row sums (`numpy.sum(sub_wins, axis=1)`). -/
def winsRow (n : ℕ) (wm : ℕ → ℕ → ℚ) (k : ℕ) : ℚ :=
  ∑ j ∈ Finset.range n, wm k j

/-- Line 234: `numpy.divide(wins, games, out=zeros, where=games!=0)` —
opponent `k`'s win fraction with team `t`'s games removed, `0` when `k`
then has no games. -/
def oppWs (n : ℕ) (wm : ℕ → ℕ → ℚ) (t k : ℕ) : ℚ :=
  if gamesPlayed n (zeroRC wm t) k = 0 then 0
  else winsRow n (zeroRC wm t) k / gamesPlayed n (zeroRC wm t) k

/-- Line 235: `ow[team] = oppWs @ opp_plays[team] / gamesPlayed(win_matrix)[team]`.
The numerator is a dot product of finite values; the division by the
team's total games is unguarded, hence `Option`-valued. -/
def owOf (n : ℕ) (wm : ℕ → ℕ → ℚ) (t : ℕ) : Option ℚ :=
  ndiv (some (∑ k ∈ Finset.range n, oppWs n wm t k * oppPlays wm t k))
    (some (gamesPlayed n wm t))

/-- One iteration of the OW loop: store `ow[team]` (a Python list update). -/
def owStep (n : ℕ) (wm : ℕ → ℕ → ℚ) (owv : ℕ → Option ℚ) (t : ℕ) :
    ℕ → Option ℚ :=
  fun k => if k = t then owOf n wm t else owv k

/-- Lines 225–235: the OW loop over an iteration order, starting from the
all-zero list `ow = [0] * num_teams`.  The state carries the win matrix:
the loop body works on `numpy.copy(win_matrix)` (line 229), so the carried
matrix is passed through unchanged. -/
def owLoopFull (n : ℕ) (order : List ℕ) (wm : ℕ → ℕ → ℚ) :
    (ℕ → ℕ → ℚ) × (ℕ → Option ℚ) :=
  order.foldl (fun st t => (st.1, owStep n st.1 st.2 t))
    (wm, fun _ => some 0)

/-- The OW vector produced by the loop (second state component). -/
def owLoop (n : ℕ) (order : List ℕ) (wm : ℕ → ℕ → ℚ) : ℕ → Option ℚ :=
  (owLoopFull n order wm).2

/-! ## The per-season pipeline (lines 221–244) -/

/-- The season's win matrix. -/
def seasonWM (inp : SeasonInput) : ℕ → ℕ → ℚ :=
  buildWinMatrix inp

/-- The season's OW vector: the loop iterates
`win_matrix_row_from_id.values()` in insertion order (line 228). -/
def seasonOW (inp : SeasonInput) : ℕ → Option ℚ :=
  owLoop (numTeams inp) (dictValues (buildRowMap inp.standings)) (seasonWM inp)

/-- Line 238: `oow = opp_plays @ transpose(ow) / gamesPlayed(win_matrix)`,
row by row; the OW entries may be NaN and NaN propagates through the
matrix–vector product (IEEE: `0 * NaN = NaN`). -/
def seasonOOW (inp : SeasonInput) : ℕ → Option ℚ :=
  fun t =>
    ndiv
      (ndot (numTeams inp) (fun k => some (oppPlays (seasonWM inp) t k))
        (seasonOW inp))
      (some (gamesPlayed (numTeams inp) (seasonWM inp) t))

/-- Line 241: `sos = (2*ow + oow) / 3`, elementwise. -/
def seasonSOS (inp : SeasonInput) : ℕ → Option ℚ :=
  fun t =>
    ndiv (nadd (nmul (some 2) (seasonOW inp t)) (seasonOOW inp t)) (some 3)

/-! ## Step 6: write-back (lines 164–165, 243–244) -/

/-- Line 165: the 59 × numSeasons table `nhl_sos = numpy.zeros(...)`,
modelled as a total function with every cell initialised to `0.0`. -/
def initTable : ℕ → ℕ → Option ℚ :=
  fun _ _ => some 0

/-- One iteration of lines 243–244:
`nhl_sos[id_from_win_matrix_row[idx]][column_idx] = stat`. -/
def wbStep (inv : List (ℕ × ℕ)) (col : ℕ) (sosv : ℕ → Option ℚ)
    (acc : ℕ → ℕ → Option ℚ) (idx : ℕ) : ℕ → ℕ → Option ℚ :=
  match lookupKey inv idx with
  | some id => fun i c => if i = id ∧ c = col then sosv idx else acc i c
  | none => acc

/-- Lines 243–244: `for idx, stat in enumerate(sos): ...` over the season's
`sos` vector of length `n`. -/
def writeBack (tb : ℕ → ℕ → Option ℚ) (inv : List (ℕ × ℕ)) (col n : ℕ)
    (sosv : ℕ → Option ℚ) : ℕ → ℕ → Option ℚ :=
  (List.range n).foldl (wbStep inv col sosv) tb

/-- The whole write-back of one season into the table. -/
def seasonWrite (tb : ℕ → ℕ → Option ℚ) (col : ℕ) (inp : SeasonInput) :
    ℕ → ℕ → Option ℚ :=
  writeBack tb (invMap (buildRowMap inp.standings)) col (numTeams inp)
    (seasonSOS inp)

/-! ## Concrete season inputs used by the examples and counterexamples -/

/-- The 2-team, 1-game season of the end-to-end example: team A (id 1, row
0) beats team B (id 2, row 1) 3–2, playing away, on a date inside the
window. -/
def exTwoTeams : SeasonInput :=
  ⟨[1, 2], [⟨5, [⟨3, 2, 1, 2⟩]⟩], 0, 10⟩

/-- A 1-team season with an empty schedule: the team appears in the
standings but has zero counted games. -/
def exZeroGames : SeasonInput :=
  ⟨[1], [], 0, 10⟩

/-- A 3-team season: id 1 beats id 2 (1–0, away) in the window; id 3 is in
the standings but plays no game. -/
def exIdleThird : SeasonInput :=
  ⟨[1, 2, 3], [⟨5, [⟨1, 0, 1, 2⟩]⟩], 0, 10⟩

/-- A 1-team season whose single game involves id 2: in the valid id
range, non-tied, in the window, but id 2 has no row in the standings
mapping. -/
def exUnmappedOpponent : SeasonInput :=
  ⟨[1], [⟨5, [⟨1, 0, 2, 1⟩]⟩], 0, 10⟩

/-! ## Auxiliary definitions used by the statements and proofs -/

/-- Entrywise nonnegativity of a matrix. -/
def MatNonneg (wm : ℕ → ℕ → ℚ) : Prop :=
  ∀ i j, 0 ≤ wm i j

/-- The (id, row) pairs a duplicate-free standings listing produces,
starting at row `r`: the normal form of `buildRowMap`. -/
def idxList : List ℕ → ℕ → List (ℕ × ℕ)
  | [], _ => []
  | a :: s, r => (a, r) :: idxList s (r + 1)

/-- The unguarded rational value of team `t`'s OW: the Step 3 weighted
average, meaningful when `t` played at least one game. -/
def owQ (n : ℕ) (wm : ℕ → ℕ → ℚ) (t : ℕ) : ℚ :=
  (∑ k ∈ Finset.range n, oppWs n wm t k * oppPlays wm t k) / gamesPlayed n wm t

/-- Sum of all cells of the `n × n` win matrix. -/
def matTotal (n : ℕ) (wm : ℕ → ℕ → ℚ) : ℚ :=
  ∑ i ∈ Finset.range n, ∑ j ∈ Finset.range n, wm i j

/-- Number of games of the season satisfying `p`, counting only days whose
date lies in the regular-season window. -/
def countGames (p : Game → Bool) (inp : SeasonInput) : ℕ :=
  (inp.days.map (fun d =>
    if inp.startDate ≤ d.date ∧ d.date ≤ inp.endDate then d.games.countP p
    else 0)).sum

/-- Modelled from the claim of C6: a game counts when it is non-tied and
both participant ids are in the valid (≤ 58) team-id range. -/
def claimPred : Game → Bool := fun g =>
  decide (g.awayScore ≠ g.homeScore) && decide (g.awayId ≤ 58) &&
    decide (g.homeId ≤ 58)

/-- The exact condition under which the code increments a win-matrix cell:
the claim's condition plus both ids resolving to rows of the matrix. -/
def codePred (rowOf : ℕ → Option ℕ) (n : ℕ) : Game → Bool := fun g =>
  claimPred g &&
    match rowOf g.awayId, rowOf g.homeId with
    | some r1, some r2 => decide (r1 < n) && decide (r2 < n)
    | _, _ => false

/-! ## Lemmas: NaN-carrying arithmetic -/

theorem nadd_none_right (x : Option ℚ) : nadd x none = none := by
  cases x <;> rfl

theorem nadd_none_left (x : Option ℚ) : nadd none x = none := by
  cases x <;> rfl

theorem nmul_some_none (x : Option ℚ) : nmul x none = none := by
  cases x <;> rfl

/-- A dot product of everywhere-finite vectors is the finite sum. -/
theorem ndot_eq_some (n : ℕ) (v w : ℕ → Option ℚ) (vq wq : ℕ → ℚ)
    (hv : ∀ k, k < n → v k = some (vq k)) (hw : ∀ k, k < n → w k = some (wq k)) :
    ndot n v w = some (∑ k ∈ Finset.range n, vq k * wq k) := by
  induction n with
  | zero => simp [ndot]
  | succ n ih =>
    have hvn := hv n (Nat.lt_succ_self n)
    have hwn := hw n (Nat.lt_succ_self n)
    have ihn := ih (fun k hk => hv k (Nat.lt_succ_of_lt hk))
      (fun k hk => hw k (Nat.lt_succ_of_lt hk))
    simp [ndot, hvn, hwn, ihn, nmul, nadd, Finset.sum_range_succ, add_comm]

/-- One NaN term poisons the whole dot product (`0 * NaN = NaN` in IEEE). -/
theorem ndot_eq_none (n : ℕ) (v w : ℕ → Option ℚ) (k : ℕ) (hk : k < n)
    (h : nmul (v k) (w k) = none) : ndot n v w = none := by
  induction n with
  | zero => omega
  | succ n ih =>
    by_cases hkn : k = n
    · subst hkn
      simp [ndot, h, nadd_none_left]
    · have : k < n := by omega
      simp [ndot, ih this, nadd_none_right]

/-! ## Lemmas: nonnegativity of the win matrix and derived quantities -/

/-- Every preserved-by-step property of the matrix survives a `foldl`. -/
theorem foldl_preserves {α : Type} (P : (ℕ → ℕ → ℚ) → Prop)
    (f : (ℕ → ℕ → ℚ) → α → ℕ → ℕ → ℚ)
    (hf : ∀ wm a, P wm → P (f wm a)) :
    ∀ (l : List α) (wm : ℕ → ℕ → ℚ), P wm → P (l.foldl f wm) := by
  intro l
  induction l with
  | nil => intro wm h; exact h
  | cons a l ih => intro wm h; exact ih (f wm a) (hf wm a h)

theorem updMat_nonneg (wm : ℕ → ℕ → ℚ) (i j : ℕ) (h : MatNonneg wm) :
    MatNonneg (updMat wm i j) := by
  intro a b
  unfold updMat
  split
  · have := h a b; linarith
  · exact h a b

theorem stepGame_nonneg (rowOf : ℕ → Option ℕ) (n : ℕ) (wm : ℕ → ℕ → ℚ)
    (g : Game) (h : MatNonneg wm) : MatNonneg (stepGame rowOf n wm g) := by
  unfold stepGame
  split
  · exact h
  split
  · rcases h1 : rowOf g.awayId with _ | r1 <;> rcases h2 : rowOf g.homeId with _ | r2 <;>
      simp [h1, h2]
    · exact h
    · exact h
    · exact h
    · split
      · exact updMat_nonneg wm r1 r2 h
      · exact h
  split
  · rcases h1 : rowOf g.homeId with _ | r1 <;> rcases h2 : rowOf g.awayId with _ | r2 <;>
      simp [h1, h2]
    · exact h
    · exact h
    · exact h
    · split
      · exact updMat_nonneg wm r1 r2 h
      · exact h
  · exact h

theorem stepDay_nonneg (rowOf : ℕ → Option ℕ) (n : ℕ) (startD endD : ℤ)
    (wm : ℕ → ℕ → ℚ) (d : GameDay) (h : MatNonneg wm) :
    MatNonneg (stepDay rowOf n startD endD wm d) := by
  unfold stepDay
  split
  · exact foldl_preserves MatNonneg (stepGame rowOf n)
      (fun wm g hw => stepGame_nonneg rowOf n wm g hw) d.games wm h
  · exact h

theorem buildWinMatrix_nonneg (inp : SeasonInput) :
    MatNonneg (buildWinMatrix inp) := by
  unfold buildWinMatrix
  exact foldl_preserves MatNonneg _
    (fun wm d hw => stepDay_nonneg _ _ _ _ wm d hw) inp.days
    (fun _ _ => 0) (fun _ _ => le_refl 0)

theorem gamesPlayed_nonneg (n : ℕ) (wm : ℕ → ℕ → ℚ) (t : ℕ)
    (h : MatNonneg wm) : 0 ≤ gamesPlayed n wm t := by
  unfold gamesPlayed
  have h1 : 0 ≤ ∑ i ∈ Finset.range n, wm i t :=
    Finset.sum_nonneg fun i _ => h i t
  have h2 : 0 ≤ ∑ j ∈ Finset.range n, wm t j :=
    Finset.sum_nonneg fun j _ => h t j
  linarith

theorem zeroRC_nonneg (wm : ℕ → ℕ → ℚ) (t : ℕ) (h : MatNonneg wm) :
    MatNonneg (zeroRC wm t) := by
  intro a b
  unfold zeroRC
  split
  · exact le_refl 0
  · exact h a b

theorem winsRow_le_gamesPlayed (n : ℕ) (wm : ℕ → ℕ → ℚ) (k : ℕ)
    (h : MatNonneg wm) : winsRow n wm k ≤ gamesPlayed n wm k := by
  unfold winsRow gamesPlayed
  have : 0 ≤ ∑ i ∈ Finset.range n, wm i k :=
    Finset.sum_nonneg fun i _ => h i k
  linarith

theorem winsRow_nonneg (n : ℕ) (wm : ℕ → ℕ → ℚ) (k : ℕ)
    (h : MatNonneg wm) : 0 ≤ winsRow n wm k :=
  Finset.sum_nonneg fun j _ => h k j

/-- The guarded opponent win fraction always lies in `[0, 1]`. -/
theorem oppWs_mem_unit (n : ℕ) (wm : ℕ → ℕ → ℚ) (t k : ℕ)
    (h : MatNonneg wm) : 0 ≤ oppWs n wm t k ∧ oppWs n wm t k ≤ 1 := by
  unfold oppWs
  have hz := zeroRC_nonneg wm t h
  split
  · exact ⟨le_refl 0, zero_le_one⟩
  · rename_i hg
    have hg0 : 0 ≤ gamesPlayed n (zeroRC wm t) k := gamesPlayed_nonneg n _ k hz
    have hgpos : 0 < gamesPlayed n (zeroRC wm t) k := lt_of_le_of_ne hg0 (Ne.symm hg)
    constructor
    · exact div_nonneg (winsRow_nonneg n _ k hz) hg0
    · rw [div_le_one hgpos]
      exact winsRow_le_gamesPlayed n _ k hz

/-- Row-sum of `opp_plays` at `t` is exactly `t`'s total games played. -/
theorem sum_oppPlays (n : ℕ) (wm : ℕ → ℕ → ℚ) (t : ℕ) :
    ∑ k ∈ Finset.range n, oppPlays wm t k = gamesPlayed n wm t := by
  unfold oppPlays gamesPlayed
  rw [Finset.sum_add_distrib]
  ring

theorem oppPlays_nonneg (wm : ℕ → ℕ → ℚ) (t k : ℕ) (h : MatNonneg wm) :
    0 ≤ oppPlays wm t k := by
  have h1 := h t k
  have h2 := h k t
  unfold oppPlays
  linarith

/-! ## Lemmas: the OW loop -/

/-- The loop threads the win matrix through unchanged (`numpy.copy` at line
229 means the zeroing happens on a private copy). -/
theorem owLoopFull_eq (n : ℕ) (order : List ℕ) (wm : ℕ → ℕ → ℚ) :
    owLoopFull n order wm = (wm, order.foldl (owStep n wm) (fun _ => some 0)) := by
  unfold owLoopFull
  suffices h : ∀ (l : List ℕ) (acc : ℕ → Option ℚ),
      l.foldl (fun st t => (st.1, owStep n st.1 st.2 t)) (wm, acc) =
        (wm, l.foldl (owStep n wm) acc) by
    exact h order (fun _ => some 0)
  intro l
  induction l with
  | nil => intro acc; rfl
  | cons a l ih => intro acc; exact ih (owStep n wm acc a)

/-- Each slot of the OW list holds `owOf` after the team is visited. -/
theorem owFold_eval (n : ℕ) (wm : ℕ → ℕ → ℚ) :
    ∀ (l : List ℕ) (acc : ℕ → Option ℚ) (t : ℕ),
      l.foldl (owStep n wm) acc t = if t ∈ l then owOf n wm t else acc t := by
  intro l
  induction l with
  | nil => intro acc t; simp
  | cons a l ih =>
    intro acc t
    rw [List.foldl_cons, ih]
    by_cases hmem : t ∈ l
    · simp [hmem]
    · by_cases hta : t = a
      · subst hta
        simp [hmem, owStep]
      · simp [hmem, hta, owStep]

theorem owLoop_eval (n : ℕ) (order : List ℕ) (wm : ℕ → ℕ → ℚ) (t : ℕ) :
    owLoop n order wm t = if t ∈ order then owOf n wm t else some 0 := by
  unfold owLoop
  rw [owLoopFull_eq]
  exact owFold_eval n wm order _ t

/-! ## Lemmas: the dict model under duplicate-free standings -/

theorem setKey_fresh (m : List (ℕ × ℕ)) (k v : ℕ)
    (h : k ∉ m.map Prod.fst) : setKey m k v = m ++ [(k, v)] := by
  induction m with
  | nil => rfl
  | cons p rest ih =>
    simp only [List.map_cons, List.mem_cons] at h
    push_neg at h
    unfold setKey
    rw [if_neg (fun hc => h.1 hc.symm), ih h.2]
    simp

theorem buildRowMapAux_fresh :
    ∀ (s : List ℕ) (r : ℕ) (m : List (ℕ × ℕ)), s.Nodup →
      (∀ a ∈ s, a ∉ m.map Prod.fst) →
      buildRowMapAux s r m = m ++ idxList s r := by
  intro s
  induction s with
  | nil => intro r m _ _; simp [buildRowMapAux, idxList]
  | cons id rest ih =>
    intro r m hnd hfresh
    have hid : id ∉ m.map Prod.fst := hfresh id (List.mem_cons_self id rest)
    have hnd2 : rest.Nodup := hnd.of_cons
    have hidrest : id ∉ rest := (List.nodup_cons.mp hnd).1
    have hfresh2 : ∀ a ∈ rest, a ∉ (m ++ [(id, r)]).map Prod.fst := by
      intro a ha
      simp only [List.map_append, List.mem_append, List.map_cons, List.map_nil,
        List.mem_singleton]
      push_neg
      refine ⟨hfresh a (List.mem_cons_of_mem id ha), ?_⟩
      intro hai
      exact hidrest (hai ▸ ha)
    calc buildRowMapAux (id :: rest) r m
        = buildRowMapAux rest (r + 1) (setKey m id r) := rfl
      _ = buildRowMapAux rest (r + 1) (m ++ [(id, r)]) := by rw [setKey_fresh m id r hid]
      _ = (m ++ [(id, r)]) ++ idxList rest (r + 1) := ih (r + 1) (m ++ [(id, r)]) hnd2 hfresh2
      _ = m ++ idxList (id :: rest) r := by simp [idxList]

/-- With duplicate-free standings, the row map is the standings listing
paired with consecutive row numbers. -/
theorem buildRowMap_eq_idxList (s : List ℕ) (hnd : s.Nodup) :
    buildRowMap s = idxList s 0 := by
  unfold buildRowMap
  rw [buildRowMapAux_fresh s 0 [] hnd (by intro a _; simp)]
  rfl

theorem idxList_length (s : List ℕ) : ∀ r, (idxList s r).length = s.length := by
  induction s with
  | nil => intro r; rfl
  | cons a rest ih => intro r; simp [idxList, ih (r + 1)]

theorem idxList_values (s : List ℕ) :
    ∀ r, (idxList s r).map Prod.snd = List.range' r s.length := by
  induction s with
  | nil => intro r; rfl
  | cons a rest ih =>
    intro r
    simp only [idxList, List.map_cons, ih (r + 1), List.length_cons]
    rw [List.range'_succ]

theorem lookup_idxList_mem (id : ℕ) :
    ∀ (s : List ℕ) (r : ℕ), id ∈ s →
      lookupKey (idxList s r) id = some (r + s.indexOf id) := by
  intro s
  induction s with
  | nil => intro r h; cases h
  | cons a rest ih =>
    intro r h
    by_cases ha : a = id
    · subst ha
      simp [idxList, lookupKey, List.indexOf_cons_self]
    · have hmem : id ∈ rest := by
        rcases List.mem_cons.mp h with h1 | h1
        · exact absurd h1.symm ha
        · exact h1
      have : lookupKey (idxList (a :: rest) r) id = lookupKey (idxList rest (r + 1)) id := by
        simp [idxList, lookupKey, ha]
      rw [this, ih (r + 1) hmem, List.indexOf_cons_ne rest (by exact ha)]
      congr 1
      omega

theorem lookup_idxList_not_mem (id : ℕ) :
    ∀ (s : List ℕ) (r : ℕ), id ∉ s → lookupKey (idxList s r) id = none := by
  intro s
  induction s with
  | nil => intro r _; rfl
  | cons a rest ih =>
    intro r h
    have ha : a ≠ id := fun hc => h (hc ▸ List.mem_cons_self a rest)
    have : id ∉ rest := fun hc => h (List.mem_cons_of_mem a hc)
    simp [idxList, lookupKey, ha, ih (r + 1) this]

/-- The generic shape of the inverse-dict build: inserting pairs with
pairwise-distinct, fresh keys just appends them. -/
theorem foldl_setKey_swap_fresh :
    ∀ (l : List (ℕ × ℕ)) (acc : List (ℕ × ℕ)), (l.map Prod.snd).Nodup →
      (∀ p ∈ l, p.2 ∉ acc.map Prod.fst) →
      l.foldl (fun acc p => setKey acc p.2 p.1) acc =
        acc ++ l.map (fun p => (p.2, p.1)) := by
  intro l
  induction l with
  | nil => intro acc _ _; simp
  | cons p rest ih =>
    intro acc hnd hfresh
    have hp : p.2 ∉ acc.map Prod.fst := hfresh p (List.mem_cons_self p rest)
    have hcons : (p.2 :: rest.map Prod.snd).Nodup := by
      simpa only [List.map_cons] using hnd
    have hnd2 : (rest.map Prod.snd).Nodup := hcons.of_cons
    have hpns : p.2 ∉ rest.map Prod.snd := (List.nodup_cons.mp hcons).1
    have hfresh2 : ∀ q ∈ rest, q.2 ∉ (acc ++ [(p.2, p.1)]).map Prod.fst := by
      intro q hq
      simp only [List.map_append, List.mem_append, List.map_cons, List.map_nil,
        List.mem_singleton]
      push_neg
      refine ⟨hfresh q (List.mem_cons_of_mem p hq), ?_⟩
      intro hqp
      exact hpns (hqp ▸ List.mem_map_of_mem Prod.snd hq)
    calc (p :: rest).foldl (fun acc p => setKey acc p.2 p.1) acc
        = rest.foldl (fun acc p => setKey acc p.2 p.1) (setKey acc p.2 p.1) := rfl
      _ = rest.foldl (fun acc p => setKey acc p.2 p.1) (acc ++ [(p.2, p.1)]) := by
          rw [setKey_fresh acc p.2 p.1 hp]
      _ = (acc ++ [(p.2, p.1)]) ++ rest.map (fun p => (p.2, p.1)) := ih _ hnd2 hfresh2
      _ = acc ++ (p :: rest).map (fun p => (p.2, p.1)) := by simp

/-- The inverse dict of a duplicate-free season is the swapped row map. -/
theorem invMap_idxList (s : List ℕ) :
    invMap (idxList s 0) = (idxList s 0).map (fun p => (p.2, p.1)) := by
  unfold invMap
  rw [foldl_setKey_swap_fresh (idxList s 0) [] ?hnd ?hfresh]
  · simp
  case hnd => rw [idxList_values s 0]; exact List.nodup_range' _ _
  case hfresh => intro p _; simp

theorem lookup_swap_idxList (s : List ℕ) :
    ∀ (r k : ℕ),
      lookupKey ((idxList s r).map (fun p => (p.2, p.1))) (r + k) = s[k]? := by
  induction s with
  | nil => intro r k; simp [idxList, lookupKey]
  | cons a rest ih =>
    intro r k
    cases k with
    | zero =>
      simp [idxList, lookupKey]
    | succ k =>
      have h1 : r + (k + 1) = r + 1 + k := by omega
      simp only [idxList, List.map_cons, lookupKey, h1, ih (r + 1) k,
        List.getElem?_cons_succ]
      rw [if_neg (show ¬ r = r + 1 + k by omega)]

/-- Under duplicate-free standings the inverse dict sends row `idx` to the
`idx`-th team of the standings listing. -/
theorem lookup_invMap (s : List ℕ) (hnd : s.Nodup) (idx : ℕ) :
    lookupKey (invMap (buildRowMap s)) idx = s[idx]? := by
  rw [buildRowMap_eq_idxList s hnd, invMap_idxList s]
  have := lookup_swap_idxList s 0 idx
  simpa using this

theorem numTeams_eq_length (inp : SeasonInput) (hnd : inp.standings.Nodup) :
    numTeams inp = inp.standings.length := by
  unfold numTeams
  rw [buildRowMap_eq_idxList _ hnd, idxList_length]

/-- Under duplicate-free standings the loop order `dict.values()` is
exactly `0, 1, …, n-1`. -/
theorem dictValues_eq_range (inp : SeasonInput) (hnd : inp.standings.Nodup) :
    dictValues (buildRowMap inp.standings) = List.range (numTeams inp) := by
  unfold dictValues
  rw [buildRowMap_eq_idxList _ hnd, idxList_values, numTeams_eq_length inp hnd,
    List.range_eq_range']

/-- Every team row below `numTeams` gets its OW value from `owOf`. -/
theorem seasonOW_eval (inp : SeasonInput) (hnd : inp.standings.Nodup) (t : ℕ)
    (ht : t < numTeams inp) :
    seasonOW inp t = owOf (numTeams inp) (seasonWM inp) t := by
  unfold seasonOW
  rw [dictValues_eq_range inp hnd, owLoop_eval, if_pos (List.mem_range.mpr ht)]

/-! ## Lemmas: the write-back loop -/

/-- A fold of write-back steps leaves untargeted cells unchanged. -/
theorem wbFold_untouched (inv : List (ℕ × ℕ)) (col : ℕ) (sosv : ℕ → Option ℚ) :
    ∀ (l : List ℕ) (tb : ℕ → ℕ → Option ℚ) (i c : ℕ),
      (∀ idx ∈ l, ¬(c = col ∧ lookupKey inv idx = some i)) →
      (l.foldl (wbStep inv col sosv) tb) i c = tb i c := by
  intro l
  induction l with
  | nil => intro tb i c _; rfl
  | cons a l ih =>
    intro tb i c h
    rw [List.foldl_cons, ih _ i c (fun idx hidx => h idx (List.mem_cons_of_mem a hidx))]
    unfold wbStep
    rcases hla : lookupKey inv a with _ | id
    · rfl
    · exact if_neg (fun hic =>
        (h a (List.mem_cons_self a l)) ⟨hic.2, by rw [hla, hic.1]⟩)

/-- The unique write targeting a cell determines its final value. -/
theorem wbFold_written (inv : List (ℕ × ℕ)) (col : ℕ) (sosv : ℕ → Option ℚ) :
    ∀ (l : List ℕ) (tb : ℕ → ℕ → Option ℚ) (idx i : ℕ), l.Nodup → idx ∈ l →
      lookupKey inv idx = some i →
      (∀ idx2 ∈ l, lookupKey inv idx2 = some i → idx2 = idx) →
      (l.foldl (wbStep inv col sosv) tb) i col = sosv idx := by
  intro l
  induction l with
  | nil => intro tb idx i _ h; cases h
  | cons a l ih =>
    intro tb idx i hnd hmem hlook huniq
    rw [List.foldl_cons]
    by_cases ha : a = idx
    · subst ha
      have hnotin : a ∉ l := (List.nodup_cons.mp hnd).1
      have hrest : ∀ idx2 ∈ l, ¬(col = col ∧ lookupKey inv idx2 = some i) := by
        intro idx2 h2 hcl
        exact hnotin ((huniq idx2 (List.mem_cons_of_mem a h2) hcl.2) ▸ h2)
      rw [wbFold_untouched inv col sosv l _ i col hrest]
      unfold wbStep
      rw [hlook]
      simp
    · have hmem2 : idx ∈ l := by
        rcases List.mem_cons.mp hmem with h1 | h1
        · exact absurd h1.symm ha
        · exact h1
      exact ih _ idx i (List.nodup_cons.mp hnd).2 hmem2 hlook
        (fun idx2 h2 hl2 => huniq idx2 (List.mem_cons_of_mem a h2) hl2)

/-! ## Evaluation lemmas for the 2-team example season -/

theorem exTwoTeams_wm : seasonWM exTwoTeams = updMat (fun _ _ => 0) 0 1 := rfl

theorem exTwoTeams_vals : dictValues (buildRowMap exTwoTeams.standings) = [0, 1] := rfl

theorem exTwoTeams_n : numTeams exTwoTeams = 2 := rfl

theorem exTwoTeams_games0 :
    gamesPlayed (numTeams exTwoTeams) (seasonWM exTwoTeams) 0 = 1 := by
  norm_num [gamesPlayed, exTwoTeams_wm, exTwoTeams_n, updMat, Finset.sum_range_succ]

theorem exTwoTeams_games0_ne :
    gamesPlayed (numTeams exTwoTeams) (seasonWM exTwoTeams) 0 ≠ 0 := by
  rw [exTwoTeams_games0]
  norm_num

theorem exTwoTeams_ow0 : seasonOW exTwoTeams 0 = some 0 := by
  norm_num [seasonOW, exTwoTeams_vals, exTwoTeams_n, exTwoTeams_wm, owLoop, owLoopFull,
    owStep, owOf, ndiv, oppWs, gamesPlayed, winsRow, zeroRC, oppPlays, updMat,
    Finset.sum_range_succ]

theorem exTwoTeams_ow1 : seasonOW exTwoTeams 1 = some 0 := by
  norm_num [seasonOW, exTwoTeams_vals, exTwoTeams_n, exTwoTeams_wm, owLoop, owLoopFull,
    owStep, owOf, ndiv, oppWs, gamesPlayed, winsRow, zeroRC, oppPlays, updMat,
    Finset.sum_range_succ]

theorem exTwoTeams_oow0 : seasonOOW exTwoTeams 0 = some 0 := by
  norm_num [seasonOOW, exTwoTeams_n, exTwoTeams_wm, exTwoTeams_ow0, exTwoTeams_ow1,
    ndot, nmul, nadd, ndiv, oppPlays, updMat, gamesPlayed, Finset.sum_range_succ]

theorem exTwoTeams_oow1 : seasonOOW exTwoTeams 1 = some 0 := by
  norm_num [seasonOOW, exTwoTeams_n, exTwoTeams_wm, exTwoTeams_ow0, exTwoTeams_ow1,
    ndot, nmul, nadd, ndiv, oppPlays, updMat, gamesPlayed, Finset.sum_range_succ]

theorem exTwoTeams_sos0 : seasonSOS exTwoTeams 0 = some 0 := by
  norm_num [seasonSOS, exTwoTeams_ow0, exTwoTeams_oow0, ndiv, nmul, nadd]

theorem exTwoTeams_sos1 : seasonSOS exTwoTeams 1 = some 0 := by
  norm_num [seasonSOS, exTwoTeams_ow1, exTwoTeams_oow1, ndiv, nmul, nadd]

/-! ## Lemmas: counting the win-matrix total -/

theorem matTotal_updMat (n : ℕ) (wm : ℕ → ℕ → ℚ) (i j : ℕ)
    (hi : i < n) (hj : j < n) :
    matTotal n (updMat wm i j) = matTotal n wm + 1 := by
  unfold matTotal updMat
  have hsplit : ∀ a b : ℕ, (if a = i ∧ b = j then wm a b + 1 else wm a b) =
      wm a b + (if a = i ∧ b = j then 1 else 0) := by
    intro a b
    split <;> simp
  simp only [hsplit, Finset.sum_add_distrib]
  have hinner : ∀ a : ℕ, (∑ b ∈ Finset.range n,
      (if a = i ∧ b = j then (1 : ℚ) else 0)) = if a = i then 1 else 0 := by
    intro a
    by_cases ha : a = i
    · subst ha
      simp only [true_and]
      rw [Finset.sum_ite_eq' (Finset.range n) j (fun _ => (1 : ℚ))]
      simp [Finset.mem_range.mpr hj]
    · simp [ha]
  have houter : (∑ a ∈ Finset.range n, ∑ b ∈ Finset.range n,
      (if a = i ∧ b = j then (1 : ℚ) else 0)) = 1 := by
    rw [Finset.sum_congr rfl (fun a _ => hinner a),
      Finset.sum_ite_eq' (Finset.range n) i (fun _ => (1 : ℚ))]
    simp [Finset.mem_range.mpr hi]
  rw [houter]

theorem matTotal_stepGame (rowOf : ℕ → Option ℕ) (n : ℕ) (wm : ℕ → ℕ → ℚ)
    (g : Game) :
    matTotal n (stepGame rowOf n wm g) =
      matTotal n wm + (if codePred rowOf n g then 1 else 0) := by
  unfold stepGame codePred claimPred
  by_cases hid : g.homeId > 58 ∨ g.awayId > 58
  · rcases hid with h | h <;>
      simp [h, Nat.not_le_of_lt h]
  · push_neg at hid
    rw [if_neg (by push_neg; omega)]
    rcases Nat.lt_trichotomy g.awayScore g.homeScore with hlt | heq | hgt
    · rw [if_neg (by omega), if_pos (by omega)]
      rcases h1 : rowOf g.homeId with _ | r1 <;> rcases h2 : rowOf g.awayId with _ | r2
      · simp [h1, h2]
      · simp [h1, h2]
      · simp [h1, h2]
      · by_cases hr1 : r1 < n
        · by_cases hr2 : r2 < n
          · simp [h1, h2, hr1, hr2, hid.1, hid.2,
              (show g.awayScore ≠ g.homeScore by omega),
              matTotal_updMat n wm r1 r2 hr1 hr2]
          · simp [h1, h2, hr1, hr2]
        · simp [h1, h2, hr1]
    · rw [if_neg (by omega), if_neg (by omega)]
      simp [heq]
    · rw [if_pos (by omega)]
      rcases h1 : rowOf g.awayId with _ | r1 <;> rcases h2 : rowOf g.homeId with _ | r2
      · simp [h1, h2]
      · simp [h1, h2]
      · simp [h1, h2]
      · by_cases hr1 : r1 < n
        · by_cases hr2 : r2 < n
          · simp [h1, h2, hr1, hr2, hid.1, hid.2,
              (show g.awayScore ≠ g.homeScore by omega),
              matTotal_updMat n wm r1 r2 hr1 hr2]
          · simp [h1, h2, hr1, hr2]
        · simp [h1, h2, hr1]

theorem matTotal_gamesFold (rowOf : ℕ → Option ℕ) (n : ℕ) :
    ∀ (gs : List Game) (wm : ℕ → ℕ → ℚ),
      matTotal n (gs.foldl (stepGame rowOf n) wm) =
        matTotal n wm + (gs.countP (codePred rowOf n) : ℚ) := by
  intro gs
  induction gs with
  | nil => intro wm; simp
  | cons g gs ih =>
    intro wm
    rw [List.foldl_cons, ih, matTotal_stepGame, List.countP_cons]
    push_cast
    by_cases hg : codePred rowOf n g
    · simp [hg]
      ring
    · simp [hg]

theorem matTotal_dayFold (rowOf : ℕ → Option ℕ) (n : ℕ) (sd ed : ℤ) :
    ∀ (ds : List GameDay) (wm : ℕ → ℕ → ℚ),
      matTotal n (ds.foldl (stepDay rowOf n sd ed) wm) =
        matTotal n wm +
          ((ds.map (fun d => if sd ≤ d.date ∧ d.date ≤ ed then
            d.games.countP (codePred rowOf n) else 0)).sum : ℚ) := by
  intro ds
  induction ds with
  | nil => intro wm; simp
  | cons d ds ih =>
    intro wm
    rw [List.foldl_cons, ih, List.map_cons, List.sum_cons]
    unfold stepDay
    by_cases hw : sd ≤ d.date ∧ d.date ≤ ed
    · rw [if_pos hw, if_pos hw, matTotal_gamesFold]
      ring
    · rw [if_neg hw, if_neg hw]
      ring

theorem matTotal_zero (n : ℕ) : matTotal n (fun _ _ => 0) = 0 := by
  simp [matTotal]

theorem daySum_cast (p : Game → Bool) (sd ed : ℤ) :
    ∀ ds : List GameDay,
      (ds.map (fun d => if sd ≤ d.date ∧ d.date ≤ ed then
          ((d.games.countP p : ℕ) : ℚ) else 0)).sum =
        (((ds.map (fun d => if sd ≤ d.date ∧ d.date ≤ ed then
          d.games.countP p else 0)).sum : ℕ) : ℚ) := by
  intro ds
  induction ds with
  | nil => simp
  | cons d ds ih =>
    simp [ih]

/-! ## Evaluation lemmas for the zero-games and idle-third example seasons -/

theorem exZeroGames_wm : seasonWM exZeroGames = (fun _ _ => 0) := rfl

theorem exZeroGames_games0 :
    gamesPlayed (numTeams exZeroGames) (seasonWM exZeroGames) 0 = 0 := by
  norm_num [gamesPlayed, exZeroGames_wm, numTeams, buildRowMap, buildRowMapAux, setKey,
    Finset.sum_range_succ]

theorem exIdleThird_wm : seasonWM exIdleThird = updMat (fun _ _ => 0) 0 1 := rfl

theorem exIdleThird_n : numTeams exIdleThird = 3 := rfl

theorem exIdleThird_vals : dictValues (buildRowMap exIdleThird.standings) = [0, 1, 2] := rfl

theorem exIdleThird_games0 :
    gamesPlayed (numTeams exIdleThird) (seasonWM exIdleThird) 0 = 1 := by
  norm_num [gamesPlayed, exIdleThird_wm, exIdleThird_n, updMat, Finset.sum_range_succ]

theorem exIdleThird_ow0 : seasonOW exIdleThird 0 = some 0 := by
  norm_num [seasonOW, exIdleThird_vals, exIdleThird_n, exIdleThird_wm, owLoop, owLoopFull,
    owStep, owOf, ndiv, oppWs, gamesPlayed, winsRow, zeroRC, oppPlays, updMat,
    Finset.sum_range_succ]

theorem exIdleThird_ow1 : seasonOW exIdleThird 1 = some 0 := by
  norm_num [seasonOW, exIdleThird_vals, exIdleThird_n, exIdleThird_wm, owLoop, owLoopFull,
    owStep, owOf, ndiv, oppWs, gamesPlayed, winsRow, zeroRC, oppPlays, updMat,
    Finset.sum_range_succ]

theorem exIdleThird_ow2 : seasonOW exIdleThird 2 = none := by
  norm_num [seasonOW, exIdleThird_vals, exIdleThird_n, exIdleThird_wm, owLoop, owLoopFull,
    owStep, owOf, ndiv, oppWs, gamesPlayed, winsRow, zeroRC, oppPlays, updMat,
    Finset.sum_range_succ]

theorem exIdleThird_oow0 : seasonOOW exIdleThird 0 = none := by
  have h2 : nmul (some (oppPlays (seasonWM exIdleThird) 0 2)) (seasonOW exIdleThird 2) =
      none := by
    rw [exIdleThird_ow2]; exact nmul_some_none _
  unfold seasonOOW
  rw [ndot_eq_none (numTeams exIdleThird) _ _ 2 (by rw [exIdleThird_n]; omega) h2]
  rfl

/-! ## Lemmas: bounds on the Step 3 weighted average -/

theorem owOf_eq_some (n : ℕ) (wm : ℕ → ℕ → ℚ) (t : ℕ)
    (hg : gamesPlayed n wm t ≠ 0) : owOf n wm t = some (owQ n wm t) := by
  simp [owOf, owQ, ndiv, hg]

theorem owOf_eq_none (n : ℕ) (wm : ℕ → ℕ → ℚ) (t : ℕ)
    (hg : gamesPlayed n wm t = 0) : owOf n wm t = none := by
  simp [owOf, ndiv, hg]

theorem owQ_mem_unit (n : ℕ) (wm : ℕ → ℕ → ℚ) (t : ℕ) (h : MatNonneg wm)
    (hg : gamesPlayed n wm t ≠ 0) : 0 ≤ owQ n wm t ∧ owQ n wm t ≤ 1 := by
  have hG0 : 0 ≤ gamesPlayed n wm t := gamesPlayed_nonneg n wm t h
  have hGpos : 0 < gamesPlayed n wm t := lt_of_le_of_ne hG0 (Ne.symm hg)
  have hterm : ∀ k ∈ Finset.range n,
      0 ≤ oppWs n wm t k * oppPlays wm t k := by
    intro k _
    exact mul_nonneg (oppWs_mem_unit n wm t k h).1 (oppPlays_nonneg wm t k h)
  have hN0 : 0 ≤ ∑ k ∈ Finset.range n, oppWs n wm t k * oppPlays wm t k :=
    Finset.sum_nonneg hterm
  have hNle : (∑ k ∈ Finset.range n, oppWs n wm t k * oppPlays wm t k) ≤
      gamesPlayed n wm t := by
    rw [← sum_oppPlays n wm t]
    refine Finset.sum_le_sum ?_
    intro k _
    have h1 := (oppWs_mem_unit n wm t k h).2
    have h2 := oppPlays_nonneg wm t k h
    nlinarith
  constructor
  · exact div_nonneg hN0 hG0
  · rw [owQ, div_le_one hGpos]
    exact hNle

/-! ## Claim theorems -/

/-- **C1.** For a team `t` with games played, the computed OW value is the
Step 3 formula: zero row and column `t`, take each opponent `k`'s win
fraction in the modified matrix (`0` when `k` has no remaining games), and
average those fractions weighted by games played against `t`. -/
theorem ow_is_step3_formula (inp : SeasonInput) (t : ℕ)
    (hnd : inp.standings.Nodup) (ht : t < numTeams inp)
    (hg : gamesPlayed (numTeams inp) (seasonWM inp) t ≠ 0) :
    seasonOW inp t =
      some ((∑ k ∈ Finset.range (numTeams inp),
        (if gamesPlayed (numTeams inp) (zeroRC (seasonWM inp) t) k = 0 then 0
          else winsRow (numTeams inp) (zeroRC (seasonWM inp) t) k /
            gamesPlayed (numTeams inp) (zeroRC (seasonWM inp) t) k) *
        (seasonWM inp t k + seasonWM inp k t)) /
      gamesPlayed (numTeams inp) (seasonWM inp) t) := by
  rw [seasonOW_eval inp hnd t ht, owOf_eq_some _ _ _ hg]
  unfold owQ
  simp only [oppWs, oppPlays]

/-- Witness for C1 on the 2-team example season at team row 0. -/
theorem ow_is_step3_formula_witness :
    exTwoTeams.standings.Nodup ∧ 0 < numTeams exTwoTeams ∧
    gamesPlayed (numTeams exTwoTeams) (seasonWM exTwoTeams) 0 ≠ 0 ∧
    seasonOW exTwoTeams 0 =
      some ((∑ k ∈ Finset.range (numTeams exTwoTeams),
        (if gamesPlayed (numTeams exTwoTeams) (zeroRC (seasonWM exTwoTeams) 0) k = 0 then 0
          else winsRow (numTeams exTwoTeams) (zeroRC (seasonWM exTwoTeams) 0) k /
            gamesPlayed (numTeams exTwoTeams) (zeroRC (seasonWM exTwoTeams) 0) k) *
        (seasonWM exTwoTeams 0 k + seasonWM exTwoTeams k 0)) /
      gamesPlayed (numTeams exTwoTeams) (seasonWM exTwoTeams) 0) :=
  ⟨by decide, by decide, exTwoTeams_games0_ne,
    ow_is_step3_formula exTwoTeams 0 (by decide) (by decide) exTwoTeams_games0_ne⟩

/-- **C6 (counterexample).** A game that is non-tied, in range and in the
window but whose participant id is missing from the standings row mapping
is counted by the claim yet never reaches the win matrix, so the claimed
equality fails. -/
theorem matrix_total_misses_unmapped_games :
    matTotal (numTeams exUnmappedOpponent) (seasonWM exUnmappedOpponent) ≠
      (countGames claimPred exUnmappedOpponent : ℚ) := by
  have h1 : countGames claimPred exUnmappedOpponent = 1 := rfl
  have h2 : matTotal (numTeams exUnmappedOpponent) (seasonWM exUnmappedOpponent) = 0 := by
    norm_num [matTotal, show seasonWM exUnmappedOpponent = (fun _ _ => 0) from rfl,
      show numTeams exUnmappedOpponent = 1 from rfl, Finset.sum_range_succ]
  rw [h1, h2]
  norm_num

/-- **C6 (amended).** The win-matrix total equals the number of games that
are non-tied, have both ids in the valid range, fall inside the window,
and whose both ids resolve through the standings row mapping to rows of
the matrix (the last condition is what the claim omitted: such games are
skipped by the caught `KeyError`). -/
theorem matrix_total_counts_mapped_games (inp : SeasonInput) :
    matTotal (numTeams inp) (seasonWM inp) =
      (countGames
        (codePred (lookupKey (buildRowMap inp.standings)) (numTeams inp)) inp : ℚ) := by
  unfold seasonWM buildWinMatrix countGames
  rw [matTotal_dayFold, matTotal_zero, zero_add]
  exact daySum_cast _ _ _ inp.days

/-- **C2 (counterexample).** In a season whose standings hold one team with
zero counted games, that team's SOS is NaN — not the `0` the claim
promises (the final division by `total_games_played[t]` is unguarded). -/
theorem zero_games_sos_not_zero :
    gamesPlayed (numTeams exZeroGames) (seasonWM exZeroGames) 0 = 0 ∧
    0 < numTeams exZeroGames ∧
    seasonSOS exZeroGames 0 ≠ some 0 := by
  refine ⟨exZeroGames_games0, by decide, ?_⟩
  intro hc
  have how : seasonOW exZeroGames 0 = none := by
    rw [seasonOW_eval exZeroGames (by decide) 0 (by decide),
      owOf_eq_none _ _ _ exZeroGames_games0]
  have hoow : seasonOOW exZeroGames 0 = none := by
    have h2 : nmul (some (oppPlays (seasonWM exZeroGames) 0 0)) (seasonOW exZeroGames 0) =
        none := by
      rw [how]; exact nmul_some_none _
    unfold seasonOOW
    rw [ndot_eq_none (numTeams exZeroGames) _ _ 0 (by decide) h2]
    rfl
  unfold seasonSOS at hc
  rw [how, hoow] at hc
  cases hc

/-- **C2 (amended).** For a standings team `t` with zero counted games, the
computation raises no exception (each step is total), but `OW[t]`, `OOW[t]`
and `SOS[t]` are all NaN — the `0.0/0.0` of the unguarded division at the
end of Step 3 — rather than `0`. -/
theorem zero_games_gives_nan (inp : SeasonInput) (t : ℕ)
    (hnd : inp.standings.Nodup) (ht : t < numTeams inp)
    (hg : gamesPlayed (numTeams inp) (seasonWM inp) t = 0) :
    seasonOW inp t = none ∧ seasonOOW inp t = none ∧ seasonSOS inp t = none := by
  have how : seasonOW inp t = none := by
    rw [seasonOW_eval inp hnd t ht, owOf_eq_none _ _ _ hg]
  have hoow : seasonOOW inp t = none := by
    have h2 : nmul (some (oppPlays (seasonWM inp) t t)) (seasonOW inp t) = none := by
      rw [how]; exact nmul_some_none _
    unfold seasonOOW
    rw [ndot_eq_none (numTeams inp) _ _ t ht h2]
    rfl
  refine ⟨how, hoow, ?_⟩
  unfold seasonSOS
  rw [how, hoow]
  rfl

/-- Witness for the amended C2 on the zero-games example season. -/
theorem zero_games_gives_nan_witness :
    exZeroGames.standings.Nodup ∧ 0 < numTeams exZeroGames ∧
    gamesPlayed (numTeams exZeroGames) (seasonWM exZeroGames) 0 = 0 ∧
    (seasonOW exZeroGames 0 = none ∧ seasonOOW exZeroGames 0 = none ∧
      seasonSOS exZeroGames 0 = none) :=
  ⟨by decide, by decide, exZeroGames_games0,
    zero_games_gives_nan exZeroGames 0 (by decide) (by decide) exZeroGames_games0⟩

/-- **C3 (counterexample).** Team row 0 of the idle-third example has one
game, yet its OOW is NaN (the idle team's NaN OW poisons the dot product
through `0 * NaN = NaN`), so OOW is not in `[0, 1]` as the claim states. -/
theorem oow_not_in_unit_interval_with_idle_team :
    gamesPlayed (numTeams exIdleThird) (seasonWM exIdleThird) 0 ≠ 0 ∧
    ¬ ∃ q, seasonOOW exIdleThird 0 = some q ∧ 0 ≤ q ∧ q ≤ 1 := by
  constructor
  · rw [exIdleThird_games0]; norm_num
  · rintro ⟨q, hq, -, -⟩
    rw [exIdleThird_oow0] at hq
    cases hq

/-- **C3 (amended).** For a team `t` with games played, `OW[t]` is a finite
value in `[0, 1]`; when additionally every standings team has at least one
counted game, `OOW[t]` and `SOS[t]` are finite values in `[0, 1]` too. -/
theorem ow_oow_sos_in_unit_interval (inp : SeasonInput) (t : ℕ)
    (hnd : inp.standings.Nodup) (ht : t < numTeams inp) :
    (gamesPlayed (numTeams inp) (seasonWM inp) t ≠ 0 →
      ∃ a, seasonOW inp t = some a ∧ 0 ≤ a ∧ a ≤ 1) ∧
    ((∀ k, k < numTeams inp → gamesPlayed (numTeams inp) (seasonWM inp) k ≠ 0) →
      ∃ a b c, seasonOW inp t = some a ∧ seasonOOW inp t = some b ∧
        seasonSOS inp t = some c ∧
        0 ≤ a ∧ a ≤ 1 ∧ 0 ≤ b ∧ b ≤ 1 ∧ 0 ≤ c ∧ c ≤ 1) := by
  have hmat : MatNonneg (seasonWM inp) := buildWinMatrix_nonneg inp
  set n := numTeams inp with hn
  set wm := seasonWM inp with hwm
  constructor
  · intro hg
    refine ⟨owQ n wm t, ?_, owQ_mem_unit n wm t hmat hg⟩
    rw [seasonOW_eval inp hnd t ht, owOf_eq_some _ _ _ hg]
  · intro hall
    have hgt := hall t ht
    have hGpos : 0 < gamesPlayed n wm t :=
      lt_of_le_of_ne (gamesPlayed_nonneg n wm t hmat) (Ne.symm hgt)
    have howk : ∀ k, k < n → seasonOW inp k = some (owQ n wm k) := by
      intro k hk
      rw [seasonOW_eval inp hnd k hk, owOf_eq_some _ _ _ (hall k hk)]
    have ha := owQ_mem_unit n wm t hmat hgt
    have hb_eq : seasonOOW inp t =
        some ((∑ k ∈ Finset.range n, oppPlays wm t k * owQ n wm k) /
          gamesPlayed n wm t) := by
      unfold seasonOOW
      rw [ndot_eq_some n _ _ (fun k => oppPlays wm t k) (fun k => owQ n wm k)
        (fun k _ => rfl) howk]
      simp [ndiv, hgt]
    have hb0 : 0 ≤ (∑ k ∈ Finset.range n, oppPlays wm t k * owQ n wm k) /
        gamesPlayed n wm t := by
      refine div_nonneg (Finset.sum_nonneg ?_) (le_of_lt hGpos)
      intro k hk
      exact mul_nonneg (oppPlays_nonneg wm t k hmat)
        (owQ_mem_unit n wm k hmat (hall k (Finset.mem_range.mp hk))).1
    have hb1 : (∑ k ∈ Finset.range n, oppPlays wm t k * owQ n wm k) /
        gamesPlayed n wm t ≤ 1 := by
      rw [div_le_one hGpos, ← sum_oppPlays n wm t]
      refine Finset.sum_le_sum ?_
      intro k hk
      have h1 := (owQ_mem_unit n wm k hmat (hall k (Finset.mem_range.mp hk))).2
      have h2 := oppPlays_nonneg wm t k hmat
      nlinarith
    refine ⟨owQ n wm t, _, (2 * owQ n wm t +
      (∑ k ∈ Finset.range n, oppPlays wm t k * owQ n wm k) / gamesPlayed n wm t) / 3,
      ?_, hb_eq, ?_, ha.1, ha.2, hb0, hb1, ?_, ?_⟩
    · rw [seasonOW_eval inp hnd t ht, owOf_eq_some _ _ _ hgt]
    · unfold seasonSOS
      rw [seasonOW_eval inp hnd t ht, owOf_eq_some _ _ _ hgt, hb_eq]
      norm_num [nmul, nadd, ndiv]
    · refine div_nonneg ?_ (by norm_num)
      linarith [ha.1, hb0]
    · rw [div_le_one (by norm_num : (0:ℚ) < 3)]
      linarith [ha.2, hb1]

/-- Witness for the amended C3 on the 2-team example season. -/
theorem ow_oow_sos_in_unit_interval_witness :
    exTwoTeams.standings.Nodup ∧ 0 < numTeams exTwoTeams ∧
    ((gamesPlayed (numTeams exTwoTeams) (seasonWM exTwoTeams) 0 ≠ 0 →
      ∃ a, seasonOW exTwoTeams 0 = some a ∧ 0 ≤ a ∧ a ≤ 1) ∧
    ((∀ k, k < numTeams exTwoTeams →
        gamesPlayed (numTeams exTwoTeams) (seasonWM exTwoTeams) k ≠ 0) →
      ∃ a b c, seasonOW exTwoTeams 0 = some a ∧ seasonOOW exTwoTeams 0 = some b ∧
        seasonSOS exTwoTeams 0 = some c ∧
        0 ≤ a ∧ a ≤ 1 ∧ 0 ≤ b ∧ b ≤ 1 ∧ 0 ≤ c ∧ c ≤ 1)) :=
  ⟨by decide, by decide,
    ow_oow_sos_in_unit_interval exTwoTeams 0 (by decide) (by decide)⟩

/-- **C4.** OOW is the games-played-weighted average of the opponents'
per-team OW values exactly as Step 3 produced them (no re-zeroing relative
to `t`): whenever every team's OW is a finite value, the computed OOW of a
team `t` with games played equals
`(Σ_k played[t][k] · OW[k]) / total_games_played[t]`. -/
theorem oow_from_unmodified_ow (inp : SeasonInput) (t : ℕ) (qv : ℕ → ℚ)
    (hg : gamesPlayed (numTeams inp) (seasonWM inp) t ≠ 0)
    (hq : ∀ k, k < numTeams inp → seasonOW inp k = some (qv k)) :
    seasonOOW inp t =
      some ((∑ k ∈ Finset.range (numTeams inp),
        (seasonWM inp t k + seasonWM inp k t) * qv k) /
      gamesPlayed (numTeams inp) (seasonWM inp) t) := by
  unfold seasonOOW
  rw [ndot_eq_some (numTeams inp) _ _ (fun k => oppPlays (seasonWM inp) t k) qv
    (fun k _ => rfl) hq]
  simp [ndiv, hg, oppPlays]

/-- Witness for C4 on the 2-team example season. -/
theorem oow_from_unmodified_ow_witness :
    gamesPlayed (numTeams exTwoTeams) (seasonWM exTwoTeams) 0 ≠ 0 ∧
    (∀ k, k < numTeams exTwoTeams → seasonOW exTwoTeams k = some 0) ∧
    seasonOOW exTwoTeams 0 =
      some ((∑ k ∈ Finset.range (numTeams exTwoTeams),
        (seasonWM exTwoTeams 0 k + seasonWM exTwoTeams k 0) * (0 : ℚ)) /
      gamesPlayed (numTeams exTwoTeams) (seasonWM exTwoTeams) 0) := by
  have hq : ∀ k, k < numTeams exTwoTeams → seasonOW exTwoTeams k = some 0 := by
    intro k hk
    have h2 : numTeams exTwoTeams = 2 := rfl
    rw [h2] at hk
    interval_cases k
    · exact exTwoTeams_ow0
    · exact exTwoTeams_ow1
  exact ⟨exTwoTeams_games0_ne, hq,
    oow_from_unmodified_ow exTwoTeams 0 (fun _ => 0) exTwoTeams_games0_ne hq⟩

/-- **C10.** The OW loop never mutates the shared win matrix (the zeroing
works on `numpy.copy(win_matrix)`), each `ow[t]` is a function of the win
matrix and `t` alone, and the resulting OW vector depends only on which
teams are iterated, not on their order. -/
theorem owLoop_fresh_copy_order_independent (n : ℕ) (wm : ℕ → ℕ → ℚ)
    (l₁ l₂ : List ℕ) (h : ∀ t, t ∈ l₁ ↔ t ∈ l₂) :
    (owLoopFull n l₁ wm).1 = wm ∧
    owLoop n l₁ wm = owLoop n l₂ wm ∧
    (∀ t, t ∈ l₁ → owLoop n l₁ wm t = owOf n wm t) := by
  refine ⟨by rw [owLoopFull_eq], ?_, ?_⟩
  · funext t
    rw [owLoop_eval, owLoop_eval]
    by_cases hm : t ∈ l₁
    · rw [if_pos hm, if_pos ((h t).mp hm)]
    · rw [if_neg hm, if_neg (fun hc => hm ((h t).mpr hc))]
  · intro t ht
    rw [owLoop_eval, if_pos ht]

/-- Witness for C10 at a concrete matrix and two orders. -/
theorem owLoop_fresh_copy_order_independent_witness :
    (owLoopFull 2 [0, 1] (fun _ _ => 0)).1 = (fun _ _ => (0 : ℚ)) ∧
    owLoop 2 [0, 1] (fun _ _ => 0) = owLoop 2 [1, 0] (fun _ _ => 0) ∧
    (∀ t, t ∈ [0, 1] → owLoop 2 [0, 1] (fun _ _ => 0) t = owOf 2 (fun _ _ => 0) t) :=
  owLoop_fresh_copy_order_independent 2 (fun _ _ => 0) [0, 1] [1, 0]
    (by intro t; simp [List.mem_cons]; tauto)

/-- **C5.** The final score is the fixed 2:1 combination
`SOS[t] = (2·OW[t] + OOW[t]) / 3` of the computed OW and OOW values. -/
theorem sos_is_weighted_combination (inp : SeasonInput) (t : ℕ) (a b : ℚ)
    (h1 : seasonOW inp t = some a) (h2 : seasonOOW inp t = some b) :
    seasonSOS inp t = some ((2 * a + b) / 3) := by
  unfold seasonSOS
  rw [h1, h2]
  simp [nmul, nadd, ndiv]

/-- Witness for C5 on the 2-team example season. -/
theorem sos_is_weighted_combination_witness :
    seasonSOS exTwoTeams 0 = some ((2 * 0 + 0) / 3) :=
  sos_is_weighted_combination exTwoTeams 0 0 0 exTwoTeams_ow0 exTwoTeams_oow0

/-- **C8.** A tie, an out-of-range (exhibition) id, or an id with no row in
the standings mapping leaves the win matrix entirely unchanged: the skip
paths and the caught `KeyError` make the game a no-op and the loop moves
on to the remaining games. -/
theorem bad_game_is_noop (rowOf : ℕ → Option ℕ) (n : ℕ) (wm : ℕ → ℕ → ℚ)
    (g : Game)
    (h : g.homeScore = g.awayScore ∨ 58 < g.homeId ∨ 58 < g.awayId ∨
      rowOf g.awayId = none ∨ rowOf g.homeId = none) :
    stepGame rowOf n wm g = wm := by
  unfold stepGame
  rcases h with h | h | h | h | h
  · have h1 : ¬ g.awayScore > g.homeScore := by omega
    have h2 : ¬ g.homeScore > g.awayScore := by omega
    simp [h1, h2]
  · simp [h]
  · simp [h]
  · split
    · rfl
    split
    · simp [h]
    split
    · rcases hh : rowOf g.homeId with _ | r1 <;> simp [hh, h]
    · rfl
  · split
    · rfl
    split
    · rcases ha : rowOf g.awayId with _ | r1 <;> simp [ha, h]
    split
    · simp [h]
    · rfl

/-- Witness for C8: a tied game (2–2) on an otherwise valid record. -/
theorem bad_game_is_noop_witness :
    stepGame (lookupKey (buildRowMap [1, 2])) 2 (fun _ _ => 0) ⟨2, 2, 1, 2⟩ =
      (fun _ _ => (0 : ℚ)) :=
  bad_game_is_noop _ 2 (fun _ _ => 0) ⟨2, 2, 1, 2⟩ (Or.inl rfl)

/-- **C7.** The end-to-end 2-team example: A (row 0) beats B (row 1) 3–2 in
the window, giving `win_matrix = [[0,1],[0,0]]`, `played[A][B] = 1`, both
OW values `0` (the self-exclusion empties each lone opponent's record and
the zero-games guard yields win fraction `0`), and `SOS[A] = SOS[B] = 0`. -/
theorem two_team_example_end_to_end :
    seasonWM exTwoTeams 0 0 = 0 ∧ seasonWM exTwoTeams 0 1 = 1 ∧
    seasonWM exTwoTeams 1 0 = 0 ∧ seasonWM exTwoTeams 1 1 = 0 ∧
    oppPlays (seasonWM exTwoTeams) 0 1 = 1 ∧
    seasonOW exTwoTeams 0 = some 0 ∧ seasonOW exTwoTeams 1 = some 0 ∧
    seasonSOS exTwoTeams 0 = some 0 ∧ seasonSOS exTwoTeams 1 = some 0 := by
  refine ⟨?_, ?_, ?_, ?_, ?_, exTwoTeams_ow0, exTwoTeams_ow1,
    exTwoTeams_sos0, exTwoTeams_sos1⟩ <;>
    norm_num [exTwoTeams_wm, updMat, oppPlays]

/-- **C9.** Write-back stores each team's SOS at the row of its original
team id (not its per-season dense row index) in the season's column, and
every table cell of a team absent from the season's standings keeps its
initial default `0.0`. -/
theorem sos_written_at_team_id (inp : SeasonInput) (col : ℕ)
    (hnd : inp.standings.Nodup) (_hids : ∀ id ∈ inp.standings, id ≤ 58) :
    (∀ id ∈ inp.standings,
      seasonWrite initTable col inp id col =
        seasonSOS inp (inp.standings.indexOf id)) ∧
    (∀ id c, id ∉ inp.standings → seasonWrite initTable col inp id c = some 0) := by
  have hlook : ∀ idx,
      lookupKey (invMap (buildRowMap inp.standings)) idx = inp.standings[idx]? :=
    lookup_invMap inp.standings hnd
  have hn := numTeams_eq_length inp hnd
  constructor
  · intro id hid
    have hlt : inp.standings.indexOf id < inp.standings.length :=
      List.indexOf_lt_length.mpr hid
    have hlook_idx : lookupKey (invMap (buildRowMap inp.standings))
        (inp.standings.indexOf id) = some id := by
      rw [hlook]
      exact List.getElem?_indexOf hid
    have huniq : ∀ idx2 ∈ List.range (numTeams inp),
        lookupKey (invMap (buildRowMap inp.standings)) idx2 = some id →
          idx2 = inp.standings.indexOf id := by
      intro idx2 _ hl2
      rw [hlook idx2] at hl2
      have hlt2 : idx2 < inp.standings.length := by
        by_contra hge
        push_neg at hge
        rw [List.getElem?_eq_none hge] at hl2
        cases hl2
      have hv2 : inp.standings[idx2] = id := by
        rw [List.getElem?_eq_getElem hlt2] at hl2
        injection hl2
      have hgid : inp.standings[inp.standings.indexOf id] = id :=
        List.getElem_indexOf hlt
      exact (List.Nodup.getElem_inj_iff hnd).mp (hv2.trans hgid.symm)
    unfold seasonWrite writeBack
    exact wbFold_written _ _ _ (List.range (numTeams inp)) initTable
      (inp.standings.indexOf id) id (List.nodup_range _)
      (List.mem_range.mpr (hn ▸ hlt)) hlook_idx huniq
  · intro id c hid
    unfold seasonWrite writeBack
    rw [wbFold_untouched _ _ _ (List.range (numTeams inp)) initTable id c ?_]
    · rfl
    intro idx _ hcl
    have hl := hcl.2
    rw [hlook idx] at hl
    exact hid (List.getElem?_mem hl)

/-- Witness for C9 on the 2-team example season, column 0. -/
theorem sos_written_at_team_id_witness :
    exTwoTeams.standings.Nodup ∧ (∀ id ∈ exTwoTeams.standings, id ≤ 58) ∧
    ((∀ id ∈ exTwoTeams.standings,
      seasonWrite initTable 0 exTwoTeams id 0 =
        seasonSOS exTwoTeams (exTwoTeams.standings.indexOf id)) ∧
    (∀ id c, id ∉ exTwoTeams.standings →
      seasonWrite initTable 0 exTwoTeams id c = some 0)) :=
  ⟨by decide, by decide,
    sos_written_at_team_id exTwoTeams 0 (by decide) (by decide)⟩

end SOSApp
